import Mathlib

/-!
Shallow embedding of the e-commerce dashboard script (dashboard/dashboard.py).

The script loads a flat table of order rows, filters it by an inclusive
estimated-delivery date range chosen in the sidebar, and derives six summary
tables from the filtered view.  We model:

  * a row of the main table as a `Row` structure; timestamp columns are
    `Option ℤ` where `Timestamp` is a count of seconds since the
    epoch (the CSV loader coerces unparseable values to a missing marker,
    modelled as `none`); string-valued dimension columns are encoded as
    numeric codes (`Option ℕ` where the column may be missing);
  * the sidebar filter `main_df` (dashboard.py lines 93-95): the selected
    start/end values are calendar dates, and comparing the timestamp column
    against `str(date)` compares against midnight of that date;
  * the six aggregator functions `create_daily_orders_df`,
    `create_bystate_customer_df`, `create_bycity_customer_df`,
    `create_review_score_df`, `create_byproduct_df`, `create_rfm_df`;
  * the headline metrics `total_orders`, `total_revenue`, `avg_review_df`.

Grouping (`groupby` with the default `sort=True`) lists group keys in
ascending order and drops rows whose key is missing; `nunique` counts
distinct non-missing values; `sort_values(ascending=False)` (whose tie
order under the default quicksort kind is implementation-defined) is
modelled by one concrete descending-by-count permutation, and no theorem
below depends on which permutation.  Integer division `/ 86400` on `ℤ` is euclidean
division, which for the positive divisor agrees with the floor division
used by calendar-day truncation and by `timedelta.days`.
-/

/-- Number of seconds in a calendar day. -/
def secPerDay : ℤ := 86400

/-- Calendar day of a timestamp (floor division by the length of a day);
this is the bucket used by a daily resample. -/
def dayOf (t : ℤ) : ℤ := t / secPerDay

@[simp] theorem secPerDay_eq : secPerDay = 86400 := rfl

/-- One row of the flat order table (`main_data.csv` after the loader's
datetime coercion). -/
structure Row where
  order_id : ℕ
  customer_id : Option ℕ
  customer_state : Option ℕ
  customer_city : Option ℕ
  product_id : ℕ
  product_category_name : Option ℕ
  price : ℚ
  review_score : ℤ
  review_id : ℕ
  order_estimated_delivery_date : Option ℤ
deriving DecidableEq, Repr

/-- Comparison `column >= str(start_date)` on a datetime column: the string
is parsed as midnight of that calendar date, and a missing value compares
false. -/
def geDate (ot : Option ℤ) (d : ℤ) : Bool :=
  match ot with
  | none => false
  | some t => decide (d * secPerDay ≤ t)

/-- Comparison `column <= str(end_date)`: against midnight of the end date,
missing compares false. -/
def leDate (ot : Option ℤ) (d : ℤ) : Bool :=
  match ot with
  | none => false
  | some t => decide (t ≤ d * secPerDay)

/-- The sidebar filter (dashboard.py lines 93-95): keep the rows whose
`order_estimated_delivery_date` is `>= str(start_date)` and
`<= str(end_date)`. -/
def main_df (all_df : List Row) (start_date end_date : ℤ) : List Row :=
  all_df.filter (fun r =>
    geDate r.order_estimated_delivery_date start_date &&
    leDate r.order_estimated_delivery_date end_date)

/-- Claim-side reading of the filter: keep exactly the rows whose calendar
day (time-of-day truncated away) lies within `[start, end]`, missing dates
excluded.  Stated from the specification's words, for comparison with
`main_df`. -/
def dateRangeSpec (all_df : List Row) (start_date end_date : ℤ) : List Row :=
  all_df.filter (fun r =>
    match r.order_estimated_delivery_date with
    | none => false
    | some t => decide (start_date ≤ dayOf t ∧ dayOf t ≤ end_date))

/-- A single-row table whose estimated-delivery timestamp is noon of
calendar day 0. -/
def noonRow : Row :=
  { order_id := 1
    customer_id := some 1
    customer_state := some 0
    customer_city := some 0
    product_id := 0
    product_category_name := some 0
    price := 10
    review_score := 5
    review_id := 0
    order_estimated_delivery_date := some 43200 }

/-- Claim C1 (counterexample).  The filter is claimed to keep exactly the
rows whose date, with time-of-day truncated, lies within `[start, end]`.
A row whose timestamp is noon of the end date has its truncated day inside
the range, yet the filter drops it, because the row's full timestamp
exceeds midnight of the end date. -/
theorem C1_counterexample :
    dayOf 43200 = 0 ∧
    dateRangeSpec [noonRow] 0 0 = [noonRow] ∧
    main_df [noonRow] 0 0 = [] ∧
    main_df [noonRow] 0 0 ≠ dateRangeSpec [noonRow] 0 0 := by
  refine ⟨by decide, by decide, by decide, by decide⟩

/-- Claim C1 (amended).  The filter keeps exactly the rows with a
non-missing `order_estimated_delivery_date` whose timestamp lies between
midnight of the start date and midnight of the end date: at the start
bound this coincides with comparing truncated calendar days, but at the
end bound a row on the end date survives only if its time-of-day is
exactly midnight.  Rows with a missing date are excluded from every
filtered result. -/
theorem C1_filter_amended (t : List Row) (s e : ℤ) :
    main_df t s e =
      t.filter (fun r =>
        match r.order_estimated_delivery_date with
        | none => false
        | some ts => decide (s ≤ dayOf ts ∧ ts ≤ e * secPerDay)) ∧
    ∀ r ∈ main_df t s e, r.order_estimated_delivery_date.isSome := by
  constructor
  · apply List.filter_congr
    intro r _
    cases h : r.order_estimated_delivery_date with
    | none => simp [geDate, leDate, h]
    | some ts =>
        apply Bool.eq_iff_iff.mpr
        simp only [geDate, leDate, h, Bool.and_eq_true, decide_eq_true_eq,
          dayOf, secPerDay]
        omega
  · intro r hr
    rw [main_df, List.mem_filter] at hr
    rcases hr with ⟨-, hcond⟩
    cases h : r.order_estimated_delivery_date with
    | none => rw [h] at hcond; simp [geDate] at hcond
    | some ts => rfl

/-- Claim C1 (witness for the amended theorem): instantiating the amended
filter description on the one-row noon table at range `[0, 1]`, where the
row is kept. -/
theorem C1_filter_amended_witness :
    main_df [noonRow] 0 1 =
      [noonRow].filter (fun r =>
        match r.order_estimated_delivery_date with
        | none => false
        | some ts => decide ((0 : ℤ) ≤ dayOf ts ∧ ts ≤ 1 * secPerDay)) ∧
    noonRow.order_estimated_delivery_date.isSome := by
  obtain ⟨h1, h2⟩ := C1_filter_amended [noonRow] 0 1
  exact ⟨h1, h2 noonRow (by decide)⟩

/-- Claim C8.  An inverted range (start strictly after end) yields an empty
filtered table; the filter is a total function, so no error is raised. -/
theorem C8_inverted_range_empty (t : List Row) (s e : ℤ) (h : e < s) :
    main_df t s e = [] := by
  rw [main_df, List.filter_eq_nil_iff]
  intro r _
  cases hd : r.order_estimated_delivery_date with
  | none => simp [geDate, hd]
  | some ts =>
      simp only [geDate, leDate, hd, Bool.and_eq_true, decide_eq_true_eq]
      intro hpq
      have h1 := hpq.1
      have h2 := hpq.2
      simp only [secPerDay] at h1 h2
      omega

/-- Claim C8 (witness): the concrete inverted range `[5, 3]` on the one-row
table produces the empty table. -/
theorem C8_inverted_range_empty_witness :
    (3 : ℤ) < 5 ∧ main_df [noonRow] 5 3 = [] :=
  ⟨by decide, C8_inverted_range_empty [noonRow] 5 3 (by decide)⟩

/-- Minimum of the nonempty list `d :: ds` (left fold). -/
def listMinOf (d : ℤ) (ds : List ℤ) : ℤ := ds.foldl min d

/-- Maximum of the nonempty list `d :: ds` (left fold). -/
def listMaxOf (d : ℤ) (ds : List ℤ) : ℤ := ds.foldl max d

/-- The calendar day a row is bucketed into by the daily resample, `none`
when the row's estimated-delivery date is missing (such rows are dropped
by the resample). -/
def rowDay (r : Row) : Option ℤ := r.order_estimated_delivery_date.map dayOf

/-- Rows falling into the daily bucket of calendar day `d`. -/
def dayRows (df : List Row) (d : ℤ) : List Row :=
  df.filter (fun r => rowDay r == some d)

/-- Count of distinct `order_id` values in the daily bucket of day `d`
(`nunique` aggregation of the resample). -/
def dayOrderCount (df : List Row) (d : ℤ) : ℕ :=
  ((dayRows df d).map Row.order_id).dedup.length

/-- Sum of `price` over the daily bucket of day `d` (`sum` aggregation of
the resample). -/
def dayRevenue (df : List Row) (d : ℤ) : ℚ :=
  ((dayRows df d).map Row.price).sum

/-- One row of the daily orders summary table. -/
structure DailyRow where
  order_date : ℤ
  order_count : ℕ
  revenue : ℚ
deriving DecidableEq, Repr

/-- `create_daily_orders_df` (dashboard.py lines 8-18): resample the table
into dense calendar-day buckets on `order_estimated_delivery_date`, from
the earliest to the latest day present, and aggregate each bucket by the
count of distinct `order_id` and the sum of `price`. -/
def create_daily_orders_df (df : List Row) : List DailyRow :=
  match df.filterMap rowDay with
  | [] => []
  | d :: ds =>
      let lo := listMinOf d ds
      let hi := listMaxOf d ds
      (List.range ((hi - lo).toNat + 1)).map (fun i : ℕ =>
        { order_date := lo + (i : ℤ)
          order_count := dayOrderCount df (lo + (i : ℤ))
          revenue := dayRevenue df (lo + (i : ℤ)) })

/-- Rows whose `customer_state` equals the group key `s` (rows with a
missing state belong to no group). -/
def stateRows (df : List Row) (s : ℕ) : List Row :=
  df.filter (fun r => r.customer_state == some s)

/-- Rows whose `customer_city` equals the group key `c`. -/
def cityRows (df : List Row) (c : ℕ) : List Row :=
  df.filter (fun r => r.customer_city == some c)

/-- Count of distinct non-missing `customer_id` values in a list of rows
(`customer_id.nunique`). -/
def nuniqueCustomer (rows : List Row) : ℕ :=
  (rows.filterMap Row.customer_id).dedup.length

/-- Count of distinct `order_id` values in a list of rows
(`order_id.nunique`). -/
def nuniqueOrder (rows : List Row) : ℕ :=
  (rows.map Row.order_id).dedup.length

/-- Per-state distinct-customer count (the `customer_count` column of the
by-state summary). -/
def stateCustomerCount (df : List Row) (s : ℕ) : ℕ :=
  nuniqueCustomer (stateRows df s)

/-- Per-city distinct-order count (the `customer_count` column of the
by-city summary). -/
def cityOrderCount (df : List Row) (c : ℕ) : ℕ :=
  nuniqueOrder (cityRows df c)

/-- Group keys of a `groupby` over a `ℕ`-coded column: the distinct
non-missing values in ascending order (pandas `groupby` sorts its keys). -/
def groupKeysNat (l : List ℕ) : List ℕ :=
  List.insertionSort (fun a b => a ≤ b) l.dedup

/-- Group keys of a `groupby` over a `ℤ`-valued column, ascending. -/
def groupKeysInt (l : List ℤ) : List ℤ :=
  List.insertionSort (fun a b => a ≤ b) l.dedup

/-- `sort_values(ascending=False)` on a keyed count column: descending by
count.  The program leaves the order of tied counts implementation-defined
(numpy quicksort); this insertion sort realises one concrete
descending-by-count permutation, and no theorem depends on the tie
order. -/
def sortByCountDesc (l : List (ℕ × ℕ)) : List (ℕ × ℕ) :=
  List.insertionSort (fun a b => b.2 ≤ a.2) l

/-- `create_bystate_customer_df` (dashboard.py lines 21-26): group the
table by `customer_state`, count distinct `customer_id` per state, and
sort the counts descending. -/
def create_bystate_customer_df (df : List Row) : List (ℕ × ℕ) :=
  sortByCountDesc
    ((groupKeysNat (df.filterMap Row.customer_state)).map
      (fun s => (s, stateCustomerCount df s)))

/-- `create_bycity_customer_df` (dashboard.py lines 29-34): group the table
by `customer_city`, count distinct `order_id` per city, and sort the
counts descending. -/
def create_bycity_customer_df (df : List Row) : List (ℕ × ℕ) :=
  sortByCountDesc
    ((groupKeysNat (df.filterMap Row.customer_city)).map
      (fun c => (c, cityOrderCount df c)))

/-- Per-score distinct-review count (`review_id.nunique` within the group
of rows having review score `v`). -/
def scoreReviewCount (df : List Row) (v : ℤ) : ℕ :=
  ((df.filter (fun r => r.review_score == v)).map Row.review_id).dedup.length

/-- `create_review_score_df` (dashboard.py lines 37-42): group by
`review_score` and count distinct `review_id` per score; keys ascending,
no zero-fill for absent scores. -/
def create_review_score_df (df : List Row) : List (ℤ × ℕ) :=
  (groupKeysInt (df.map Row.review_score)).map
    (fun v => (v, scoreReviewCount df v))

/-- Per-category distinct-product count (`product_id.nunique` within the
group of rows having category `g`). -/
def categoryProductCount (df : List Row) (g : ℕ) : ℕ :=
  ((df.filter (fun r => r.product_category_name == some g)).map
    Row.product_id).dedup.length

/-- `create_byproduct_df` (dashboard.py lines 45-47): group by
`product_category_name` and count distinct `product_id` per category;
keys ascending. -/
def create_byproduct_df (df : List Row) : List (ℕ × ℕ) :=
  (groupKeysNat (df.filterMap Row.product_category_name)).map
    (fun g => (g, categoryProductCount df g))

/-- Rows of the group of customer `c` in the RFM `groupby`. -/
def customerRows (df : List Row) (c : ℕ) : List Row :=
  df.filter (fun r => r.customer_id == some c)

/-- Per-customer anchor: the maximum non-missing
`order_estimated_delivery_date` among the customer's rows (`max`
aggregation, which skips missing values), `none` when every date in the
group is missing. -/
def customerAnchor (df : List Row) (c : ℕ) : Option ℤ :=
  match (customerRows df c).filterMap Row.order_estimated_delivery_date with
  | [] => none
  | d :: ds => some (listMaxOf d ds)

/-- The group keys of the RFM `groupby`: distinct non-missing
`customer_id` values, ascending. -/
def rfmCustomers (df : List Row) : List ℕ :=
  groupKeysNat (df.filterMap Row.customer_id)

/-- `recent_date` (dashboard.py line 57): the maximum of the per-customer
anchors, `none` when no anchor is defined. -/
def recentDate (df : List Row) : Option ℤ :=
  match (rfmCustomers df).filterMap (customerAnchor df) with
  | [] => none
  | a :: as => some (listMaxOf a as)

/-- One row of the RFM summary table.  `recency` is `none` when the
subtraction `recent_date - max_order_timestamp` involves a missing value. -/
structure RfmRow where
  customer_id : ℕ
  frequency : ℕ
  monetary : ℚ
  recency : Option ℤ
deriving DecidableEq, Repr

/-- `create_rfm_df` (dashboard.py lines 50-61): group by `customer_id`;
per customer take the maximum estimated-delivery timestamp (the anchor),
the count of distinct `order_id` (frequency) and the sum of `price`
(monetary); recency is the whole-day difference between the global maximum
anchor and the customer's own anchor (`timedelta.days` floors). -/
def create_rfm_df (df : List Row) : List RfmRow :=
  (rfmCustomers df).map (fun c =>
    { customer_id := c
      frequency := nuniqueOrder (customerRows df c)
      monetary := ((customerRows df c).map Row.price).sum
      recency :=
        match recentDate df, customerAnchor df c with
        | some recent, some x => some ((recent - x) / secPerDay)
        | _, _ => none })

/-- The Total Orders metric (dashboard.py lines 115-116): sum of the
`order_count` column of the daily orders summary. -/
def total_orders (daily : List DailyRow) : ℕ :=
  (daily.map DailyRow.order_count).sum

/-- The Total Revenue metric (dashboard.py line 119): sum of the `revenue`
column of the daily orders summary. -/
def total_revenue (daily : List DailyRow) : ℚ :=
  (daily.map DailyRow.revenue).sum

/-- Rounding to two decimal places, as applied to the average review
score. -/
def round2 (q : ℚ) : ℚ := (round (q * 100) : ℚ) / 100

/-- The Average Review Score metric (dashboard.py line 177):
`round(main_df.review_score.mean(), 2)`; the mean of a column is its sum
divided by the number of rows, and the mean of an empty column is missing
(`NaN`), modelled as `none`. -/
def avg_review_df (df : List Row) : Option ℚ :=
  match df with
  | [] => none
  | _ => some (round2 (((df.map Row.review_score).sum : ℚ) / df.length))

theorem listMinOf_le_forall (ds : List ℤ) :
    ∀ (d : ℤ), ∀ x ∈ d :: ds, listMinOf d ds ≤ x := by
  induction ds with
  | nil =>
      intro d x hx
      rw [List.mem_singleton] at hx
      simp [listMinOf, hx]
  | cons a as ih =>
      intro d x hx
      have hstep : listMinOf d (a :: as) = listMinOf (min d a) as := by
        simp [listMinOf]
      rw [hstep]
      rcases List.mem_cons.mp hx with rfl | hx2
      · exact le_trans (ih _ _ (List.mem_cons_self _ _)) (min_le_left x a)
      · rcases List.mem_cons.mp hx2 with rfl | hx3
        · exact le_trans (ih _ _ (List.mem_cons_self _ _)) (min_le_right d x)
        · exact ih _ x (List.mem_cons_of_mem _ hx3)

theorem listMinOf_le {d x : ℤ} {ds : List ℤ} (hx : x ∈ d :: ds) :
    listMinOf d ds ≤ x :=
  listMinOf_le_forall ds d x hx

theorem le_listMaxOf_forall (ds : List ℤ) :
    ∀ (d : ℤ), ∀ x ∈ d :: ds, x ≤ listMaxOf d ds := by
  induction ds with
  | nil =>
      intro d x hx
      rw [List.mem_singleton] at hx
      simp [listMaxOf, hx]
  | cons a as ih =>
      intro d x hx
      have hstep : listMaxOf d (a :: as) = listMaxOf (max d a) as := by
        simp [listMaxOf]
      rw [hstep]
      rcases List.mem_cons.mp hx with rfl | hx2
      · exact le_trans (le_max_left x a) (ih _ _ (List.mem_cons_self _ _))
      · rcases List.mem_cons.mp hx2 with rfl | hx3
        · exact le_trans (le_max_right d x) (ih _ _ (List.mem_cons_self _ _))
        · exact ih _ x (List.mem_cons_of_mem _ hx3)

theorem le_listMaxOf {d x : ℤ} {ds : List ℤ} (hx : x ∈ d :: ds) :
    x ≤ listMaxOf d ds :=
  le_listMaxOf_forall ds d x hx

theorem listMaxOf_mem (d : ℤ) (ds : List ℤ) : listMaxOf d ds ∈ d :: ds := by
  induction ds generalizing d with
  | nil => simp [listMaxOf]
  | cons a as ih =>
      have hstep : listMaxOf d (a :: as) = listMaxOf (max d a) as := by
        simp [listMaxOf]
      rw [hstep]
      have hmem := ih (max d a)
      rcases List.mem_cons.mp hmem with h | h
      · rcases max_choice d a with hm | hm <;> rw [h, hm]
        · exact List.mem_cons_self _ _
        · exact List.mem_cons_of_mem _ (List.mem_cons_self _ _)
      · exact List.mem_cons_of_mem _ (List.mem_cons_of_mem _ h)

theorem sum_map_range {M : Type*} [AddCommMonoid M] (f : ℕ → M) (n : ℕ) :
    ((List.range n).map f).sum = ∑ i ∈ Finset.range n, f i := by
  induction n with
  | zero => simp
  | succ n ih =>
      rw [List.range_succ, List.map_append, List.sum_append,
        Finset.sum_range_succ, ih]
      simp


theorem listMinOf_mem (d : ℤ) (ds : List ℤ) : listMinOf d ds ∈ d :: ds := by
  induction ds generalizing d with
  | nil => simp [listMinOf]
  | cons a as ih =>
      have hstep : listMinOf d (a :: as) = listMinOf (min d a) as := by
        simp [listMinOf]
      rw [hstep]
      have hmem := ih (min d a)
      rcases List.mem_cons.mp hmem with h | h
      · rcases min_choice d a with hm | hm <;> rw [h, hm]
        · exact List.mem_cons_self _ _
        · exact List.mem_cons_of_mem _ (List.mem_cons_self _ _)
      · exact List.mem_cons_of_mem _ (List.mem_cons_of_mem _ h)

/-- Membership characterisation of the daily summary: the bucket of day
`d` is present exactly when `d` lies between the earliest and latest day
of the table, and each present bucket carries the distinct-order count and
the price sum of its day. -/
theorem create_daily_orders_mem (df : List Row) (b : DailyRow) :
    b ∈ create_daily_orders_df df ↔
      (∃ d₁ ∈ df.filterMap rowDay, d₁ ≤ b.order_date) ∧
      (∃ d₂ ∈ df.filterMap rowDay, b.order_date ≤ d₂) ∧
      b.order_count = dayOrderCount df b.order_date ∧
      b.revenue = dayRevenue df b.order_date := by
  obtain ⟨D, C, R⟩ := b
  cases hds : df.filterMap rowDay with
  | nil => simp [create_daily_orders_df, hds]
  | cons d ds =>
      have hlo : listMinOf d ds ∈ d :: ds := listMinOf_mem d ds
      have hhi : listMaxOf d ds ∈ d :: ds := listMaxOf_mem d ds
      have hlohi : listMinOf d ds ≤ listMaxOf d ds := le_listMaxOf hlo
      simp only [create_daily_orders_df, hds]
      rw [List.mem_map]
      constructor
      · rintro ⟨i, hir, hb⟩
        rw [List.mem_range] at hir
        rw [DailyRow.mk.injEq] at hb
        obtain ⟨h1, h2, h3⟩ := hb
        subst h1
        refine ⟨⟨listMinOf d ds, hlo, by omega⟩,
          ⟨listMaxOf d ds, hhi, by omega⟩, h2.symm, h3.symm⟩
      · rintro ⟨⟨d₁, hd₁, h₁⟩, ⟨d₂, hd₂, h₂⟩, hC, hR⟩
        have k1 : listMinOf d ds ≤ d₁ := listMinOf_le hd₁
        have k2 : d₂ ≤ listMaxOf d ds := le_listMaxOf hd₂
        refine ⟨(D - listMinOf d ds).toNat, List.mem_range.mpr (by omega), ?_⟩
        have hD : listMinOf d ds + ((D - listMinOf d ds).toNat : ℤ) = D := by
          omega
        rw [hD, DailyRow.mk.injEq]
        exact ⟨rfl, hC.symm, hR.symm⟩

/-- Number of days from 1970-01-01 to 2018-01-01. -/
def day20180101 : ℤ := 17532

/-- Test fixture: an order row with the given order id, price and
estimated-delivery timestamp. -/
def mkOrderRow (oid : ℕ) (p : ℚ) (ts : ℤ) : Row :=
  { order_id := oid
    customer_id := some oid
    customer_state := some 0
    customer_city := some 0
    product_id := oid
    product_category_name := some 0
    price := p
    review_score := 5
    review_id := oid
    order_estimated_delivery_date := some ts }

/-- The specification's worked example: three orders estimated for
2018-01-01, 2018-01-01 and 2018-01-03 with prices 10, 20 and 5. -/
def c2table : List Row :=
  [mkOrderRow 1 10 (day20180101 * secPerDay),
   mkOrderRow 2 20 (day20180101 * secPerDay),
   mkOrderRow 3 5 ((day20180101 + 2) * secPerDay)]

theorem c2table_days :
    c2table.filterMap rowDay = [day20180101, day20180101, day20180101 + 2] := by
  decide

theorem c2table_day0_rows :
    dayRows c2table day20180101 =
      [mkOrderRow 1 10 (day20180101 * secPerDay),
       mkOrderRow 2 20 (day20180101 * secPerDay)] := by
  decide

theorem c2table_day1_rows : dayRows c2table (day20180101 + 1) = [] := by
  decide

theorem c2table_day2_rows :
    dayRows c2table (day20180101 + 2) =
      [mkOrderRow 3 5 ((day20180101 + 2) * secPerDay)] := by
  decide

theorem c2table_example :
    create_daily_orders_df c2table =
      [⟨day20180101, 2, 30⟩, ⟨day20180101 + 1, 0, 0⟩,
       ⟨day20180101 + 2, 1, 5⟩] := by
  have hmin : listMinOf day20180101 [day20180101, day20180101 + 2] =
      day20180101 := by decide
  have hmax : listMaxOf day20180101 [day20180101, day20180101 + 2] =
      day20180101 + 2 := by decide
  simp only [create_daily_orders_df, c2table_days, hmin, hmax]
  rw [show ((day20180101 + 2 - day20180101).toNat + 1) = 3 by decide]
  rw [show List.range 3 = [0, 1, 2] from rfl]
  simp only [List.map, List.cons.injEq, and_true, DailyRow.mk.injEq]
  norm_num
  refine ⟨⟨by decide, ?_⟩, ⟨by decide, ?_⟩, by decide, ?_⟩
  · rw [dayRevenue, c2table_day0_rows]
    norm_num [mkOrderRow]
  · rw [dayRevenue, c2table_day1_rows]
    norm_num
  · rw [dayRevenue, c2table_day2_rows]
    norm_num [mkOrderRow]

/-- Claim C2.  The daily summary groups rows into calendar-day buckets of
`order_estimated_delivery_date`: every bucket carries the count of
distinct `order_id` and the sum of `price` of its day, every day lying
between two days present in the table appears as a bucket (dense
resample, zero days included), and on the specification's worked example
(orders on 2018-01-01, 2018-01-01, 2018-01-03 with prices 10/20/5) the
summary is exactly (2018-01-01, 2, 30), (2018-01-02, 0, 0),
(2018-01-03, 1, 5). -/
theorem C2_daily_orders_df :
    (∀ (df : List Row), ∀ b ∈ create_daily_orders_df df,
        b.order_count = dayOrderCount df b.order_date ∧
        b.revenue = dayRevenue df b.order_date) ∧
    (∀ (df : List Row) (d d₁ d₂ : ℤ),
        (∃ r ∈ df, rowDay r = some d₁) → (∃ r ∈ df, rowDay r = some d₂) →
        d₁ ≤ d → d ≤ d₂ →
        ∃ b ∈ create_daily_orders_df df,
          b.order_date = d ∧ b.order_count = dayOrderCount df d ∧
          b.revenue = dayRevenue df d) ∧
    create_daily_orders_df c2table =
      [⟨day20180101, 2, 30⟩, ⟨day20180101 + 1, 0, 0⟩,
       ⟨day20180101 + 2, 1, 5⟩] := by
  refine ⟨?_, ?_, c2table_example⟩
  · intro df b hb
    exact ((create_daily_orders_mem df b).mp hb).2.2
  · intro df d d₁ d₂ h₁ h₂ hle₁ hle₂
    obtain ⟨r₁, hr₁, hd₁⟩ := h₁
    obtain ⟨r₂, hr₂, hd₂⟩ := h₂
    refine ⟨⟨d, dayOrderCount df d, dayRevenue df d⟩, ?_, rfl, rfl, rfl⟩
    exact (create_daily_orders_mem df _).mpr
      ⟨⟨d₁, List.mem_filterMap.mpr ⟨r₁, hr₁, hd₁⟩, hle₁⟩,
       ⟨d₂, List.mem_filterMap.mpr ⟨r₂, hr₂, hd₂⟩, hle₂⟩, rfl, rfl⟩

/-- Claim C2 (witness): instantiating the bucket-correctness and
dense-coverage statements on the worked example at the zero-order day
2018-01-02. -/
theorem C2_daily_orders_df_witness :
    (⟨day20180101, 2, 30⟩ : DailyRow) ∈ create_daily_orders_df c2table ∧
    (∃ b ∈ create_daily_orders_df c2table,
      b.order_date = day20180101 + 1 ∧
      b.order_count = dayOrderCount c2table (day20180101 + 1) ∧
      b.revenue = dayRevenue c2table (day20180101 + 1)) := by
  obtain ⟨h1, h2, h3⟩ := C2_daily_orders_df
  constructor
  · rw [h3]
    exact List.mem_cons_self _ _
  · exact h2 c2table (day20180101 + 1) day20180101 (day20180101 + 2)
      ⟨mkOrderRow 1 10 (day20180101 * secPerDay), by decide, by decide⟩
      ⟨mkOrderRow 3 5 ((day20180101 + 2) * secPerDay), by decide, by decide⟩
      (by decide) (by decide)

/-- Distinct counts are monotone under sublists. -/
theorem dedupLength_le_of_sublist {α : Type*} [DecidableEq α]
    {l₁ l₂ : List α} (h : l₁.Sublist l₂) : l₁.dedup.length ≤ l₂.dedup.length := by
  rw [← List.card_toFinset, ← List.card_toFinset]
  apply Finset.card_le_card
  intro x hx
  rw [List.mem_toFinset] at *
  exact h.subset hx

/-- Narrowing the date range keeps a sub-collection of the rows: the
filtered table of a sub-range is a sublist of the filtered table of the
enclosing range. -/
theorem main_df_sublist (t : List Row) {s₁ e₁ s₂ e₂ : ℤ}
    (hs : s₂ ≤ s₁) (he : e₁ ≤ e₂) :
    (main_df t s₁ e₁).Sublist (main_df t s₂ e₂) := by
  apply List.monotone_filter_right
  intro r hr
  rw [Bool.and_eq_true] at hr ⊢
  obtain ⟨h1, h2⟩ := hr
  cases hd : r.order_estimated_delivery_date with
  | none => rw [hd] at h1; simp [geDate] at h1
  | some ts =>
      rw [hd] at h1 h2
      simp only [geDate, leDate, decide_eq_true_eq, secPerDay_eq] at h1 h2 ⊢
      omega

/-- The filtered table is always a sublist of the full table. -/
theorem main_df_sublist_self (t : List Row) (s e : ℤ) :
    (main_df t s e).Sublist t :=
  List.filter_sublist t

theorem dayRows_sublist {A B : List Row} (h : A.Sublist B) (d : ℤ) :
    (dayRows A d).Sublist (dayRows B d) := h.filter _

theorem dayOrderCount_mono {A B : List Row} (h : A.Sublist B) (d : ℤ) :
    dayOrderCount A d ≤ dayOrderCount B d :=
  dedupLength_le_of_sublist ((dayRows_sublist h d).map _)

theorem dayRevenue_mono {A B : List Row} (h : A.Sublist B)
    (hp : ∀ r ∈ B, 0 ≤ r.price) (d : ℤ) :
    dayRevenue A d ≤ dayRevenue B d := by
  apply List.Sublist.sum_le_sum ((dayRows_sublist h d).map _)
  intro a ha
  rw [List.mem_map] at ha
  obtain ⟨r, hr, rfl⟩ := ha
  exact hp r (List.filter_sublist B |>.subset hr)

theorem dayRevenue_nonneg {B : List Row} (hp : ∀ r ∈ B, 0 ≤ r.price)
    (d : ℤ) : 0 ≤ dayRevenue B d := by
  apply List.sum_nonneg
  intro a ha
  rw [List.mem_map] at ha
  obtain ⟨r, hr, rfl⟩ := ha
  exact hp r (List.filter_sublist B |>.subset hr)

theorem stateCustomerCount_mono {A B : List Row} (h : A.Sublist B) (s : ℕ) :
    stateCustomerCount A s ≤ stateCustomerCount B s :=
  dedupLength_le_of_sublist ((h.filter _).filterMap _)

theorem cityOrderCount_mono {A B : List Row} (h : A.Sublist B) (c : ℕ) :
    cityOrderCount A c ≤ cityOrderCount B c :=
  dedupLength_le_of_sublist ((h.filter _).map _)

theorem scoreReviewCount_mono {A B : List Row} (h : A.Sublist B) (v : ℤ) :
    scoreReviewCount A v ≤ scoreReviewCount B v :=
  dedupLength_le_of_sublist ((h.filter _).map _)

theorem categoryProductCount_mono {A B : List Row} (h : A.Sublist B) (g : ℕ) :
    categoryProductCount A g ≤ categoryProductCount B g :=
  dedupLength_le_of_sublist ((h.filter _).map _)

theorem customerFrequency_mono {A B : List Row} (h : A.Sublist B) (c : ℕ) :
    nuniqueOrder (customerRows A c) ≤ nuniqueOrder (customerRows B c) :=
  dedupLength_le_of_sublist ((h.filter _).map _)

theorem customerMonetary_mono {A B : List Row} (h : A.Sublist B)
    (hp : ∀ r ∈ B, 0 ≤ r.price) (c : ℕ) :
    ((customerRows A c).map Row.price).sum ≤
      ((customerRows B c).map Row.price).sum := by
  apply List.Sublist.sum_le_sum ((h.filter _).map _)
  intro a ha
  rw [List.mem_map] at ha
  obtain ⟨r, hr, rfl⟩ := ha
  exact hp r (List.filter_sublist B |>.subset hr)

theorem image_range_Icc (lo hi : ℤ) (hle : lo ≤ hi) :
    (Finset.range ((hi - lo).toNat + 1)).image (fun i : ℕ => lo + (i : ℤ)) =
      Finset.Icc lo hi := by
  ext x
  simp only [Finset.mem_image, Finset.mem_range, Finset.mem_Icc]
  constructor
  · rintro ⟨i, h1, rfl⟩
    omega
  · intro hx
    exact ⟨(x - lo).toNat, by omega, by omega⟩

/-- Summing any function of the daily-summary rows equals summing over the
inclusive day interval from the earliest to the latest day present. -/
theorem daily_map_sum {M : Type*} [AddCommMonoid M] (df : List Row)
    (d : ℤ) (ds : List ℤ) (h : df.filterMap rowDay = d :: ds)
    (F : DailyRow → M) :
    ((create_daily_orders_df df).map F).sum =
      ∑ x ∈ Finset.Icc (listMinOf d ds) (listMaxOf d ds),
        F ⟨x, dayOrderCount df x, dayRevenue df x⟩ := by
  have hle : listMinOf d ds ≤ listMaxOf d ds :=
    le_listMaxOf (listMinOf_mem d ds)
  simp only [create_daily_orders_df, h, List.map_map]
  rw [sum_map_range, ← image_range_Icc (listMinOf d ds) (listMaxOf d ds) hle,
    Finset.sum_image (by intro x hx y hy hxy; omega)]
  rfl

theorem total_orders_mono {A B : List Row} (h : A.Sublist B) :
    total_orders (create_daily_orders_df A) ≤
      total_orders (create_daily_orders_df B) := by
  cases hA : A.filterMap rowDay with
  | nil => simp [total_orders, create_daily_orders_df, hA]
  | cons d ds =>
      have hsubdays : (A.filterMap rowDay).Sublist (B.filterMap rowDay) :=
        h.filterMap _
      cases hB : B.filterMap rowDay with
      | nil =>
          rw [hA, hB] at hsubdays
          exact absurd (List.sublist_nil.mp hsubdays) (by simp)
      | cons d' ds' =>
          rw [hA, hB] at hsubdays
          have hlo : listMinOf d' ds' ≤ listMinOf d ds :=
            listMinOf_le (hsubdays.subset (listMinOf_mem d ds))
          have hhi : listMaxOf d ds ≤ listMaxOf d' ds' :=
            le_listMaxOf (hsubdays.subset (listMaxOf_mem d ds))
          rw [total_orders, total_orders, daily_map_sum A d ds hA,
            daily_map_sum B d' ds' hB]
          calc ∑ x ∈ Finset.Icc (listMinOf d ds) (listMaxOf d ds),
                dayOrderCount A x
              ≤ ∑ x ∈ Finset.Icc (listMinOf d ds) (listMaxOf d ds),
                dayOrderCount B x :=
                Finset.sum_le_sum (fun x _ => dayOrderCount_mono h x)
            _ ≤ ∑ x ∈ Finset.Icc (listMinOf d' ds') (listMaxOf d' ds'),
                dayOrderCount B x :=
                Finset.sum_le_sum_of_subset (Finset.Icc_subset_Icc hlo hhi)

theorem total_revenue_mono {A B : List Row} (h : A.Sublist B)
    (hp : ∀ r ∈ B, 0 ≤ r.price) :
    total_revenue (create_daily_orders_df A) ≤
      total_revenue (create_daily_orders_df B) := by
  cases hA : A.filterMap rowDay with
  | nil =>
      have hA0 : create_daily_orders_df A = [] := by
        simp [create_daily_orders_df, hA]
      rw [hA0, show total_revenue [] = 0 from rfl]
      cases hB : B.filterMap rowDay with
      | nil =>
          have hB0 : create_daily_orders_df B = [] := by
            simp [create_daily_orders_df, hB]
          rw [hB0, show total_revenue [] = 0 from rfl]
      | cons d' ds' =>
          rw [total_revenue, daily_map_sum B d' ds' hB]
          exact Finset.sum_nonneg (fun x _ => dayRevenue_nonneg hp x)
  | cons d ds =>
      have hsubdays : (A.filterMap rowDay).Sublist (B.filterMap rowDay) :=
        h.filterMap _
      cases hB : B.filterMap rowDay with
      | nil =>
          rw [hA, hB] at hsubdays
          exact absurd (List.sublist_nil.mp hsubdays) (by simp)
      | cons d' ds' =>
          rw [hA, hB] at hsubdays
          have hlo : listMinOf d' ds' ≤ listMinOf d ds :=
            listMinOf_le (hsubdays.subset (listMinOf_mem d ds))
          have hhi : listMaxOf d ds ≤ listMaxOf d' ds' :=
            le_listMaxOf (hsubdays.subset (listMaxOf_mem d ds))
          rw [total_revenue, total_revenue, daily_map_sum A d ds hA,
            daily_map_sum B d' ds' hB]
          calc ∑ x ∈ Finset.Icc (listMinOf d ds) (listMaxOf d ds),
                dayRevenue A x
              ≤ ∑ x ∈ Finset.Icc (listMinOf d ds) (listMaxOf d ds),
                dayRevenue B x :=
                Finset.sum_le_sum (fun x _ => dayRevenue_mono h hp x)
            _ ≤ ∑ x ∈ Finset.Icc (listMinOf d' ds') (listMaxOf d' ds'),
                dayRevenue B x :=
                Finset.sum_le_sum_of_subset_of_nonneg
                  (Finset.Icc_subset_Icc hlo hhi)
                  (fun x _ _ => dayRevenue_nonneg hp x)

/-- A table containing a negatively priced row on calendar day 1 (a price
is numeric data loaded from the CSV; nothing in the code constrains its
sign). -/
def c3table : List Row :=
  [mkOrderRow 1 10 0, mkOrderRow 2 (-5) secPerDay]

theorem c3_narrow_revenue :
    total_revenue (create_daily_orders_df (main_df c3table 0 0)) = 10 := by
  rw [show main_df c3table 0 0 = [mkOrderRow 1 10 0] from by decide]
  rw [total_revenue,
    daily_map_sum [mkOrderRow 1 10 0] 0 [] (by decide)]
  rw [show listMinOf 0 [] = 0 from rfl, show listMaxOf 0 [] = 0 from rfl,
    Finset.Icc_self, Finset.sum_singleton]
  rw [dayRevenue,
    show dayRows [mkOrderRow 1 10 0] 0 = [mkOrderRow 1 10 0] from by decide]
  norm_num [mkOrderRow]

theorem c3_wide_revenue :
    total_revenue (create_daily_orders_df (main_df c3table 0 1)) = 5 := by
  rw [show main_df c3table 0 1 = c3table from by decide]
  rw [total_revenue, daily_map_sum c3table 0 [1] (by decide)]
  rw [show listMinOf 0 [1] = 0 from rfl, show listMaxOf 0 [1] = 1 from rfl]
  rw [show Finset.Icc (0 : ℤ) 1 = {0, 1} from rfl]
  rw [Finset.sum_insert (by decide), Finset.sum_singleton]
  rw [dayRevenue, show dayRows c3table 0 = [mkOrderRow 1 10 0] from by decide]
  rw [dayRevenue,
    show dayRows c3table 1 = [mkOrderRow 2 (-5) secPerDay] from by decide]
  norm_num [mkOrderRow]

/-- Claim C3 (counterexample).  Narrowing the range `[0, 1]` to the
sub-range `[0, 0]` on a table whose day-1 row has a negative price makes
the Total Revenue aggregate increase from 5 to 10, so the claimed
monotonicity of every aggregate sum fails as stated. -/
theorem C3_counterexample :
    (0 : ℤ) ≤ 0 ∧ (1 : ℤ) ≤ 1 ∧ (0 : ℤ) ≤ 1 ∧
    ¬ (total_revenue (create_daily_orders_df (main_df c3table 0 0)) ≤
        total_revenue (create_daily_orders_df (main_df c3table 0 1))) := by
  refine ⟨le_refl 0, le_refl 1, by norm_num, ?_⟩
  rw [c3_narrow_revenue, c3_wide_revenue]
  norm_num

/-- Claim C3 (amended).  For a sub-range `[s₁, e₁] ⊆ [s₂, e₂]`, every
aggregate count is monotone unconditionally; aggregate price sums are
monotone provided every price in the table is nonnegative (a negative
price breaks sum monotonicity, as the counterexample shows). -/
theorem C3_monotonic_amended (t : List Row) (s₁ e₁ s₂ e₂ : ℤ)
    (hs : s₂ ≤ s₁) (he : e₁ ≤ e₂) :
    (∀ d, dayOrderCount (main_df t s₁ e₁) d ≤
        dayOrderCount (main_df t s₂ e₂) d) ∧
    (∀ s, stateCustomerCount (main_df t s₁ e₁) s ≤
        stateCustomerCount (main_df t s₂ e₂) s) ∧
    (∀ c, cityOrderCount (main_df t s₁ e₁) c ≤
        cityOrderCount (main_df t s₂ e₂) c) ∧
    (∀ v, scoreReviewCount (main_df t s₁ e₁) v ≤
        scoreReviewCount (main_df t s₂ e₂) v) ∧
    (∀ g, categoryProductCount (main_df t s₁ e₁) g ≤
        categoryProductCount (main_df t s₂ e₂) g) ∧
    (∀ c, nuniqueOrder (customerRows (main_df t s₁ e₁) c) ≤
        nuniqueOrder (customerRows (main_df t s₂ e₂) c)) ∧
    nuniqueOrder (main_df t s₁ e₁) ≤ nuniqueOrder (main_df t s₂ e₂) ∧
    total_orders (create_daily_orders_df (main_df t s₁ e₁)) ≤
      total_orders (create_daily_orders_df (main_df t s₂ e₂)) ∧
    ((∀ r ∈ t, 0 ≤ r.price) →
      (∀ d, dayRevenue (main_df t s₁ e₁) d ≤
          dayRevenue (main_df t s₂ e₂) d) ∧
      (∀ c, ((customerRows (main_df t s₁ e₁) c).map Row.price).sum ≤
          ((customerRows (main_df t s₂ e₂) c).map Row.price).sum) ∧
      total_revenue (create_daily_orders_df (main_df t s₁ e₁)) ≤
        total_revenue (create_daily_orders_df (main_df t s₂ e₂))) := by
  have hsub : (main_df t s₁ e₁).Sublist (main_df t s₂ e₂) :=
    main_df_sublist t hs he
  refine ⟨fun d => dayOrderCount_mono hsub d,
    fun s => stateCustomerCount_mono hsub s,
    fun c => cityOrderCount_mono hsub c,
    fun v => scoreReviewCount_mono hsub v,
    fun g => categoryProductCount_mono hsub g,
    fun c => customerFrequency_mono hsub c,
    dedupLength_le_of_sublist (hsub.map _),
    total_orders_mono hsub,
    fun hp => ?_⟩
  have hpB : ∀ r ∈ main_df t s₂ e₂, 0 ≤ r.price :=
    fun r hr => hp r ((main_df_sublist_self t s₂ e₂).subset hr)
  exact ⟨fun d => dayRevenue_mono hsub hpB d,
    fun c => customerMonetary_mono hsub hpB c,
    total_revenue_mono hsub hpB⟩

/-- Claim C3 (witness): instantiating monotonicity on the worked example
table for the sub-range `[2018-01-01, 2018-01-01]` of
`[2018-01-01, 2018-01-03]`. -/
theorem C3_monotonic_amended_witness :
    dayOrderCount (main_df c2table day20180101 day20180101) day20180101 ≤
      dayOrderCount (main_df c2table day20180101 (day20180101 + 2))
        day20180101 ∧
    total_revenue
        (create_daily_orders_df (main_df c2table day20180101 day20180101)) ≤
      total_revenue
        (create_daily_orders_df
          (main_df c2table day20180101 (day20180101 + 2))) := by
  obtain ⟨h1, -, -, -, -, -, -, -, hsums⟩ :=
    C3_monotonic_amended c2table day20180101 day20180101 day20180101
      (day20180101 + 2) (le_refl _) (by norm_num)
  obtain ⟨-, -, h10⟩ := hsums (by decide)
  exact ⟨h1 day20180101, h10⟩

/-- Claim-side alternative reading of the average review metric: the mean
over distinct `(review_id, review_score)` pairs rather than over rows.
Stated from the specification's words, for comparison with
`avg_review_df`. -/
def distinctReviewMean (df : List Row) : ℚ :=
  ((((df.map (fun r => (r.review_id, r.review_score))).dedup).map
      (fun p => (p.2 : ℚ))).sum) /
    ((df.map (fun r => (r.review_id, r.review_score))).dedup).length

/-- Test fixture: a row carrying a review with the given order id, review
id and score. -/
def mkReviewRow (oid rid : ℕ) (score : ℤ) : Row :=
  { order_id := oid
    customer_id := some oid
    customer_state := some 0
    customer_city := some 0
    product_id := 0
    product_category_name := some 0
    price := 10
    review_score := score
    review_id := rid
    order_estimated_delivery_date := some 0 }

/-- A table in which review 0 (score 5) belongs to an order with two line
items and review 1 (score 1) to a single-row order. -/
def c9table : List Row :=
  [mkReviewRow 1 0 5, mkReviewRow 1 0 5, mkReviewRow 2 1 1]

/-- Claim C9.  The Average Review Score metric is the arithmetic mean of
`review_score` over the rows of the filtered table, rounded to two decimal
places; a review whose order has several line-item rows is weighted once
per row, so on a table with scores 5,5,1 (reviews 0,0,1) the metric is
3.67 while the distinct-review mean would round to 3. -/
theorem C9_avg_review :
    (∀ df : List Row, df ≠ [] →
      avg_review_df df =
        some (round2 (((df.map Row.review_score).sum : ℚ) / df.length))) ∧
    avg_review_df c9table = some (367 / 100) ∧
    round2 (distinctReviewMean c9table) = 3 ∧
    avg_review_df c9table ≠ some (round2 (distinctReviewMean c9table)) := by
  have h1 : ∀ df : List Row, df ≠ [] →
      avg_review_df df =
        some (round2 (((df.map Row.review_score).sum : ℚ) / df.length)) := by
    intro df hdf
    cases df with
    | nil => exact absurd rfl hdf
    | cons a l => rfl
  have h2 : avg_review_df c9table = some (367 / 100) := by
    rw [h1 c9table (by decide)]
    norm_num [c9table, mkReviewRow, round2, round_eq]
  have h3 : round2 (distinctReviewMean c9table) = 3 := by
    rw [distinctReviewMean,
      show (c9table.map (fun r => (r.review_id, r.review_score))).dedup =
        [(0, 5), (1, 1)] from by decide]
    norm_num [round2, round_eq]
  refine ⟨h1, h2, h3, ?_⟩
  rw [h2, h3]
  intro hcontra
  rw [Option.some.injEq] at hcontra
  norm_num at hcontra

/-- Claim C9 (witness): the row-weighted mean formula instantiated on the
three-row table. -/
theorem C9_avg_review_witness :
    avg_review_df c9table =
      some (round2 (((c9table.map Row.review_score).sum : ℚ) /
        c9table.length)) :=
  C9_avg_review.1 c9table (by decide)

theorem mem_rfmCustomers {df : List Row} {c : ℕ} :
    c ∈ rfmCustomers df ↔ c ∈ df.filterMap Row.customer_id := by
  rw [rfmCustomers, groupKeysNat, (List.perm_insertionSort _ _).mem_iff]
  exact List.mem_dedup

theorem rfm_map_customer_id (df : List Row) :
    (create_rfm_df df).map RfmRow.customer_id = rfmCustomers df := by
  rw [create_rfm_df, List.map_map]
  exact List.map_id' _

/-- Claim C10.  The RFM summary has exactly one row per distinct
non-missing `customer_id` of the table (its customer column is a
duplicate-free permutation of those ids), and every row's frequency is at
least 1. -/
theorem C10_rfm_one_row_per_customer (df : List Row) :
    ((create_rfm_df df).map RfmRow.customer_id).Perm
      ((df.filterMap Row.customer_id).dedup) ∧
    ((create_rfm_df df).map RfmRow.customer_id).Nodup ∧
    ∀ row ∈ create_rfm_df df, 1 ≤ row.frequency := by
  refine ⟨?_, ?_, ?_⟩
  · rw [rfm_map_customer_id]
    exact List.perm_insertionSort _ _
  · rw [rfm_map_customer_id]
    exact ((List.perm_insertionSort _ _).nodup_iff).mpr (List.nodup_dedup _)
  · intro row hrow
    rw [create_rfm_df, List.mem_map] at hrow
    obtain ⟨c, hc, rfl⟩ := hrow
    obtain ⟨r, hr, hrc⟩ := List.mem_filterMap.mp (mem_rfmCustomers.mp hc)
    have hrin : r ∈ customerRows df c := by
      rw [customerRows, List.mem_filter]
      exact ⟨hr, by rw [hrc]; exact beq_self_eq_true _⟩
    have hmem : r.order_id ∈ ((customerRows df c).map Row.order_id).dedup :=
      List.mem_dedup.mpr (List.mem_map_of_mem _ hrin)
    exact List.length_pos.mpr (List.ne_nil_of_mem hmem)

/-- Claim C10 (witness): on the worked example table, the RFM customer
column is a permutation of the distinct customer ids, and customer 1's
frequency is at least one. -/
theorem C10_rfm_one_row_per_customer_witness :
    ((create_rfm_df c2table).map RfmRow.customer_id).Perm
      ((c2table.filterMap Row.customer_id).dedup) ∧
    1 ≤ nuniqueOrder (customerRows c2table 1) := by
  obtain ⟨hp, -, hf⟩ := C10_rfm_one_row_per_customer c2table
  refine ⟨hp, ?_⟩
  have hm : ({ customer_id := 1
               frequency := nuniqueOrder (customerRows c2table 1)
               monetary := ((customerRows c2table 1).map Row.price).sum
               recency :=
                 match recentDate c2table, customerAnchor c2table 1 with
                 | some recent, some x => some ((recent - x) / secPerDay)
                 | _, _ => none } : RfmRow) ∈ create_rfm_df c2table := by
    rw [create_rfm_df]
    exact List.mem_map_of_mem _ (by decide)
  exact hf _ hm

theorem mem_customerRows {df : List Row} {c : ℕ} {r : Row}
    (hr : r ∈ df) (hrc : r.customer_id = some c) :
    r ∈ customerRows df c := by
  rw [customerRows, List.mem_filter]
  exact ⟨hr, by rw [hrc]; exact beq_self_eq_true _⟩

/-- When every row of the table carries a date, each grouped customer has
a defined anchor: the maximum date among the customer's rows. -/
theorem customerAnchor_spec {df : List Row} {c : ℕ}
    (hd : ∀ r ∈ df, r.order_estimated_delivery_date.isSome)
    (hcm : c ∈ rfmCustomers df) :
    ∃ x, customerAnchor df c = some x ∧
      (∀ y ∈ (customerRows df c).filterMap Row.order_estimated_delivery_date,
        y ≤ x) ∧
      x ∈ (customerRows df c).filterMap Row.order_estimated_delivery_date := by
  obtain ⟨r, hr, hrc⟩ := List.mem_filterMap.mp (mem_rfmCustomers.mp hcm)
  have hrin : r ∈ customerRows df c := mem_customerRows hr hrc
  obtain ⟨ts, hts⟩ := Option.isSome_iff_exists.mp (hd r hr)
  have htsmem :
      ts ∈ (customerRows df c).filterMap Row.order_estimated_delivery_date :=
    List.mem_filterMap.mpr ⟨r, hrin, hts⟩
  cases hgd :
      (customerRows df c).filterMap Row.order_estimated_delivery_date with
  | nil => rw [hgd] at htsmem; simp at htsmem
  | cons d0 ds0 =>
      refine ⟨listMaxOf d0 ds0, ?_, ?_, ?_⟩
      · simp [customerAnchor, hgd]
      · intro y hy
        exact le_listMaxOf hy
      · exact listMaxOf_mem d0 ds0

/-- When every row carries a date and some row carries a customer id,
`recent_date` is defined, bounds every anchor from above and is attained
by some customer. -/
theorem recentDate_spec {df : List Row}
    (hd : ∀ r ∈ df, r.order_estimated_delivery_date.isSome)
    (hc : ∃ r ∈ df, r.customer_id.isSome) :
    ∃ recent, recentDate df = some recent ∧
      (∀ c ∈ rfmCustomers df, ∀ x, customerAnchor df c = some x →
        x ≤ recent) ∧
      (∃ c ∈ rfmCustomers df, customerAnchor df c = some recent) := by
  obtain ⟨r, hr, hrc⟩ := hc
  obtain ⟨c0, hc0⟩ := Option.isSome_iff_exists.mp hrc
  have hc0m : c0 ∈ rfmCustomers df :=
    mem_rfmCustomers.mpr (List.mem_filterMap.mpr ⟨r, hr, hc0⟩)
  obtain ⟨x0, hx0, -, -⟩ := customerAnchor_spec hd hc0m
  have hx0mem : x0 ∈ (rfmCustomers df).filterMap (customerAnchor df) :=
    List.mem_filterMap.mpr ⟨c0, hc0m, hx0⟩
  cases han : (rfmCustomers df).filterMap (customerAnchor df) with
  | nil => rw [han] at hx0mem; simp at hx0mem
  | cons a as =>
      refine ⟨listMaxOf a as, ?_, ?_, ?_⟩
      · simp [recentDate, han]
      · intro c hcm x hx
        have hxmem : x ∈ (rfmCustomers df).filterMap (customerAnchor df) :=
          List.mem_filterMap.mpr ⟨c, hcm, hx⟩
        rw [han] at hxmem
        exact le_listMaxOf hxmem
      · have hm := listMaxOf_mem a as
        rw [← han] at hm
        exact List.mem_filterMap.mp hm

/-- A table whose two customers share the same anchor date. -/
def c4table : List Row := [mkOrderRow 1 10 0, mkOrderRow 2 20 0]

/-- Claim C4 (counterexample).  On a filtered table where two customers
share the maximal anchor date, both RFM rows have recency 0, so the claim
that exactly one customer has recency 0 fails. -/
theorem C4_counterexample :
    (create_rfm_df c4table).map RfmRow.recency = [some 0, some 0] ∧
    ((create_rfm_df c4table).filter
        (fun row => row.recency == some 0)).length ≠ 1 := by
  constructor
  · decide
  · decide

/-- Claim C4 (amended).  On a filtered table (every row dated) containing
at least one customer id, every RFM row's recency is the whole-day
difference between the global maximum anchor and the customer's own
anchor, hence nonnegative, and at least one row (a customer whose anchor
attains the maximum — possibly several) has recency exactly 0. -/
theorem C4_rfm_recency_amended (df : List Row)
    (hd : ∀ r ∈ df, r.order_estimated_delivery_date.isSome)
    (hc : ∃ r ∈ df, r.customer_id.isSome) :
    (∀ row ∈ create_rfm_df df, ∃ recent x,
        recentDate df = some recent ∧
        customerAnchor df row.customer_id = some x ∧
        row.recency = some ((recent - x) / secPerDay) ∧
        x ≤ recent ∧ 0 ≤ (recent - x) / secPerDay) ∧
    (∃ row ∈ create_rfm_df df, row.recency = some 0) := by
  obtain ⟨recent, hrecent, hbound, c₀, hc₀m, hc₀⟩ := recentDate_spec hd hc
  constructor
  · intro row hrow
    rw [create_rfm_df, List.mem_map] at hrow
    obtain ⟨c, hcm, rfl⟩ := hrow
    obtain ⟨x, hx, -, -⟩ := customerAnchor_spec hd hcm
    have hxr : x ≤ recent := hbound c hcm x hx
    refine ⟨recent, x, hrecent, hx, ?_, hxr, ?_⟩
    · simp only [hrecent, hx]
    · simp only [secPerDay_eq]
      omega
  · refine ⟨{ customer_id := c₀
              frequency := nuniqueOrder (customerRows df c₀)
              monetary := ((customerRows df c₀).map Row.price).sum
              recency :=
                match recentDate df, customerAnchor df c₀ with
                | some recent, some x => some ((recent - x) / secPerDay)
                | _, _ => none }, ?_, ?_⟩
    · rw [create_rfm_df]
      exact List.mem_map_of_mem _ hc₀m
    · simp only [hrecent, hc₀]
      norm_num

/-- Claim C4 (witness): the amended statement instantiated on the worked
example table, whose single maximal-anchor customer is customer 3. -/
theorem C4_rfm_recency_amended_witness :
    ∃ row ∈ create_rfm_df c2table, row.recency = some 0 :=
  (C4_rfm_recency_amended c2table (by decide) ⟨mkOrderRow 1 10
    (day20180101 * secPerDay), by decide, by decide⟩).2

theorem find?_row {p : Row → Bool} {df : List Row} {r : Row}
    (hr : r ∈ df) (hp : p r = true) :
    ∃ r₀ ∈ df, df.find? p = some r₀ ∧ p r₀ = true := by
  have hsome : (df.find? p).isSome := by
    rw [List.find?_isSome]
    exact ⟨r, hr, hp⟩
  obtain ⟨r₀, hr₀⟩ := Option.isSome_iff_exists.mp hsome
  exact ⟨r₀, List.mem_of_find?_eq_some hr₀, hr₀, List.find?_some hr₀⟩

/-- The estimated-delivery day of an order: the day of the first row
carrying the order id (when each order has a single day, this is that
day). -/
def orderDayOf (df : List Row) (o : ℕ) : ℤ :=
  ((df.find? (fun r => r.order_id == o)).bind rowDay).getD 0

theorem mem_dayRows {df : List Row} {b : ℤ} {r : Row} :
    r ∈ dayRows df b ↔ r ∈ df ∧ rowDay r = some b := by
  rw [dayRows, List.mem_filter, beq_iff_eq]

/-- Claim C5.  When every row carries an estimated-delivery date and all
rows of an order share the same calendar day (each order maps to exactly
one estimated-delivery day), the Total Orders metric — the sum of
`order_count` over the daily summary — equals the number of distinct
`order_id` values in the table: the day buckets partition the distinct
orders with no double counting. -/
theorem C5_total_orders (df : List Row)
    (hd : ∀ r ∈ df, (rowDay r).isSome)
    (hone : ∀ r₁ ∈ df, ∀ r₂ ∈ df, r₁.order_id = r₂.order_id →
      rowDay r₁ = rowDay r₂) :
    total_orders (create_daily_orders_df df) = nuniqueOrder df := by
  cases hds : df.filterMap rowDay with
  | nil =>
      cases df with
      | nil => rfl
      | cons r t =>
          obtain ⟨y, hy⟩ :=
            Option.isSome_iff_exists.mp (hd r (List.mem_cons_self _ _))
          have hmem : y ∈ (r :: t).filterMap rowDay :=
            List.mem_filterMap.mpr ⟨r, List.mem_cons_self _ _, hy⟩
          rw [hds] at hmem
          simp at hmem
  | cons d ds =>
      rw [total_orders, daily_map_sum df d ds hds, nuniqueOrder,
        ← List.card_toFinset]
      have hfib : ∀ o ∈ (df.map Row.order_id).toFinset,
          orderDayOf df o ∈
            Finset.Icc (listMinOf d ds) (listMaxOf d ds) := by
        intro o ho
        rw [List.mem_toFinset, List.mem_map] at ho
        obtain ⟨r, hr, rfl⟩ := ho
        obtain ⟨r₀, hr₀m, hr₀f, hr₀p⟩ :=
          @find?_row (fun x => x.order_id == r.order_id) _ _ hr
            (beq_self_eq_true r.order_id)
        obtain ⟨y, hy⟩ := Option.isSome_iff_exists.mp (hd r₀ hr₀m)
        have hyd : y ∈ df.filterMap rowDay :=
          List.mem_filterMap.mpr ⟨r₀, hr₀m, hy⟩
        rw [hds] at hyd
        simp only [orderDayOf, hr₀f, Option.some_bind, hy, Option.getD_some,
          Finset.mem_Icc]
        exact ⟨listMinOf_le hyd, le_listMaxOf hyd⟩
      rw [Finset.card_eq_sum_card_fiberwise hfib]
      apply Finset.sum_congr rfl
      intro b hb
      show dayOrderCount df b = _
      rw [dayOrderCount, ← List.card_toFinset]
      congr 1
      ext o
      rw [List.mem_toFinset, List.mem_map, Finset.mem_filter,
        List.mem_toFinset, List.mem_map]
      constructor
      · rintro ⟨r, hr, rfl⟩
        obtain ⟨hrdf, hrday⟩ := mem_dayRows.mp hr
        refine ⟨⟨r, hrdf, rfl⟩, ?_⟩
        obtain ⟨r₀, hr₀m, hr₀f, hr₀p⟩ :=
          @find?_row (fun x => x.order_id == r.order_id) _ _ hrdf
            (beq_self_eq_true r.order_id)
        simp only [beq_iff_eq] at hr₀p
        have hr₀day : rowDay r₀ = some b := by
          rw [hone r₀ hr₀m r hrdf hr₀p]
          exact hrday
        simp only [orderDayOf, hr₀f, Option.some_bind, hr₀day,
          Option.getD_some]
      · rintro ⟨⟨r, hrdf, rfl⟩, hob⟩
        obtain ⟨r₀, hr₀m, hr₀f, hr₀p⟩ :=
          @find?_row (fun x => x.order_id == r.order_id) _ _ hrdf
            (beq_self_eq_true r.order_id)
        simp only [beq_iff_eq] at hr₀p
        obtain ⟨y, hy⟩ := Option.isSome_iff_exists.mp (hd r₀ hr₀m)
        simp only [orderDayOf, hr₀f, Option.some_bind, hy,
          Option.getD_some] at hob
        have hrday : rowDay r = some b := by
          rw [hone r hrdf r₀ hr₀m hr₀p.symm, hy, hob]
        exact ⟨r, mem_dayRows.mpr ⟨hrdf, hrday⟩, rfl⟩

/-- Claim C5 (witness): on the worked example table (three orders, each on
a single day) the Total Orders metric equals the distinct order count,
namely 3. -/
theorem C5_total_orders_witness :
    total_orders (create_daily_orders_df c2table) = nuniqueOrder c2table ∧
    nuniqueOrder c2table = 3 :=
  ⟨C5_total_orders c2table (by decide) (by decide), by decide⟩

/-- The distinct non-missing customer ids of a table, as a finite set. -/
def custFinset (t : List Row) : Finset ℕ := (t.filterMap Row.customer_id).toFinset

/-- The state of a customer: the `customer_state` of the first row
carrying the customer id (under functional dependence, the state of every
such row). -/
def custStateOf (t : List Row) (c : ℕ) : Option ℕ :=
  (t.find? (fun r => r.customer_id == some c)).bind Row.customer_state

theorem dedup_toFinset {α : Type*} [DecidableEq α] (l : List α) :
    l.dedup.toFinset = l.toFinset := by
  ext x
  simp [List.mem_dedup]

theorem bystate_sum_eq (t : List Row) :
    ((create_bystate_customer_df t).map Prod.snd).sum =
      ∑ s ∈ (t.filterMap Row.customer_state).toFinset,
        stateCustomerCount t s := by
  have h1 : ((create_bystate_customer_df t).map Prod.snd).Perm
      ((((groupKeysNat (t.filterMap Row.customer_state))).map
        (fun s => (s, stateCustomerCount t s))).map Prod.snd) := by
    apply List.Perm.map
    exact List.perm_insertionSort _ _
  rw [h1.sum_eq, List.map_map]
  rw [show ((groupKeysNat (t.filterMap Row.customer_state)).map
      (Prod.snd ∘ fun s => (s, stateCustomerCount t s))) =
    ((groupKeysNat (t.filterMap Row.customer_state)).map
      (stateCustomerCount t)) from rfl]
  have h2 : ((groupKeysNat (t.filterMap Row.customer_state)).map
      (stateCustomerCount t)).Perm
      (((t.filterMap Row.customer_state).dedup).map (stateCustomerCount t)) :=
    (List.perm_insertionSort _ _).map _
  rw [h2.sum_eq]
  rw [← List.sum_toFinset _ (List.nodup_dedup _), dedup_toFinset]

theorem stateCustomerCount_fiber (t : List Row)
    (hfd : ∀ r₁ ∈ t, ∀ r₂ ∈ t, r₁.customer_id = r₂.customer_id →
      r₁.customer_id.isSome → r₁.customer_state = r₂.customer_state)
    (s : ℕ) :
    stateCustomerCount t s =
      ((custFinset t).filter (fun c => custStateOf t c = some s)).card := by
  rw [stateCustomerCount, nuniqueCustomer, ← List.card_toFinset]
  congr 1
  ext c
  rw [List.mem_toFinset, List.mem_filterMap, Finset.mem_filter]
  constructor
  · rintro ⟨r, hr, hrc⟩
    have hmem : r ∈ t ∧ r.customer_state = some s := by
      rw [stateRows, List.mem_filter, beq_iff_eq] at hr
      exact hr
    refine ⟨?_, ?_⟩
    · rw [custFinset, List.mem_toFinset]
      exact List.mem_filterMap.mpr ⟨r, hmem.1, hrc⟩
    · obtain ⟨r₀, hr₀m, hr₀f, hr₀p⟩ :=
        @find?_row (fun x => x.customer_id == some c) _ _ hmem.1
          (by simp only [hrc, beq_self_eq_true])
      simp only [beq_iff_eq] at hr₀p
      rw [custStateOf, hr₀f, Option.some_bind]
      rw [hfd r₀ hr₀m r hmem.1 (by rw [hr₀p, hrc]) (by rw [hr₀p]; rfl)]
      exact hmem.2
  · rintro ⟨hcf, hcs⟩
    rw [custFinset, List.mem_toFinset] at hcf
    obtain ⟨r, hr, hrc⟩ := List.mem_filterMap.mp hcf
    obtain ⟨r₀, hr₀m, hr₀f, hr₀p⟩ :=
      @find?_row (fun x => x.customer_id == some c) _ _ hr
        (by simp only [hrc, beq_self_eq_true])
    simp only [beq_iff_eq] at hr₀p
    rw [custStateOf, hr₀f, Option.some_bind] at hcs
    have hrs : r.customer_state = some s := by
      rw [hfd r hr r₀ hr₀m (by rw [hrc, hr₀p]) (by rw [hrc]; rfl)]
      exact hcs
    refine ⟨r, ?_, hrc⟩
    rw [stateRows, List.mem_filter]
    exact ⟨hr, by simp only [hrs, beq_self_eq_true]⟩

theorem sum_states_eq (t : List Row)
    (hfd : ∀ r₁ ∈ t, ∀ r₂ ∈ t, r₁.customer_id = r₂.customer_id →
      r₁.customer_id.isSome → r₁.customer_state = r₂.customer_state) :
    ∑ s ∈ (t.filterMap Row.customer_state).toFinset,
        stateCustomerCount t s =
      ((custFinset t).filter (fun c => (custStateOf t c).isSome)).card := by
  have hfib : ∀ c ∈ (custFinset t).filter
      (fun c => (custStateOf t c).isSome),
      (custStateOf t c).getD 0 ∈ (t.filterMap Row.customer_state).toFinset := by
    intro c hc
    rw [Finset.mem_filter] at hc
    obtain ⟨hcf, hcs⟩ := hc
    obtain ⟨s, hs⟩ := Option.isSome_iff_exists.mp hcs
    rw [hs, Option.getD_some]
    rw [custFinset, List.mem_toFinset] at hcf
    obtain ⟨r, hr, hrc⟩ := List.mem_filterMap.mp hcf
    obtain ⟨r₀, hr₀m, hr₀f, -⟩ :=
      @find?_row (fun x => x.customer_id == some c) _ _ hr
        (by simp only [hrc, beq_self_eq_true])
    rw [custStateOf, hr₀f, Option.some_bind] at hs
    rw [List.mem_toFinset]
    exact List.mem_filterMap.mpr ⟨r₀, hr₀m, hs⟩
  rw [Finset.card_eq_sum_card_fiberwise hfib]
  apply Finset.sum_congr rfl
  intro s hs
  rw [stateCustomerCount_fiber t hfd s]
  congr 1
  ext c
  rw [Finset.mem_filter, Finset.mem_filter, Finset.mem_filter]
  constructor
  · rintro ⟨hcf, hcs⟩
    exact ⟨⟨hcf, by rw [hcs]; rfl⟩, by rw [hcs]; rfl⟩
  · rintro ⟨⟨hcf, hsome⟩, hgd⟩
    obtain ⟨y, hy⟩ := Option.isSome_iff_exists.mp hsome
    rw [hy, Option.getD_some] at hgd
    exact ⟨hcf, by rw [hy, hgd]⟩

/-- Claim C6.  Under functional dependence of `customer_state` on
`customer_id`, the by-state customer counts sum to at most the number of
distinct customers, with equality exactly when every row with a customer
id also has a state. -/
theorem C6_bystate_sum (t : List Row)
    (hfd : ∀ r₁ ∈ t, ∀ r₂ ∈ t, r₁.customer_id = r₂.customer_id →
      r₁.customer_id.isSome → r₁.customer_state = r₂.customer_state) :
    ((create_bystate_customer_df t).map Prod.snd).sum ≤ nuniqueCustomer t ∧
    (((create_bystate_customer_df t).map Prod.snd).sum =
        nuniqueCustomer t ↔
      ∀ r ∈ t, r.customer_id.isSome → r.customer_state.isSome) := by
  have hkey : ((create_bystate_customer_df t).map Prod.snd).sum =
      ((custFinset t).filter (fun c => (custStateOf t c).isSome)).card := by
    rw [bystate_sum_eq, sum_states_eq t hfd]
  have htotal : nuniqueCustomer t = (custFinset t).card := by
    rw [nuniqueCustomer, ← List.card_toFinset]
    rfl
  constructor
  · rw [hkey, htotal]
    exact Finset.card_le_card (Finset.filter_subset _ _)
  · rw [hkey, htotal]
    constructor
    · intro heq r hr hrc
      have heq2 : (custFinset t).filter
          (fun c => (custStateOf t c).isSome) = custFinset t :=
        Finset.eq_of_subset_of_card_le (Finset.filter_subset _ _)
          (le_of_eq heq.symm)
      obtain ⟨c, hc⟩ := Option.isSome_iff_exists.mp hrc
      have hcf : c ∈ custFinset t := by
        rw [custFinset, List.mem_toFinset]
        exact List.mem_filterMap.mpr ⟨r, hr, hc⟩
      have hcff : c ∈ (custFinset t).filter
          (fun c => (custStateOf t c).isSome) := by
        rw [heq2]
        exact hcf
      rw [Finset.mem_filter] at hcff
      obtain ⟨s, hs⟩ := Option.isSome_iff_exists.mp hcff.2
      obtain ⟨r₀, hr₀m, hr₀f, hr₀p⟩ :=
        @find?_row (fun x => x.customer_id == some c) _ _ hr
          (by simp only [hc, beq_self_eq_true])
      simp only [beq_iff_eq] at hr₀p
      rw [custStateOf, hr₀f, Option.some_bind] at hs
      rw [hfd r hr r₀ hr₀m (by rw [hc, hr₀p]) (by rw [hc]; rfl), hs]
      rfl
    · intro hall
      congr 1
      apply Finset.filter_true_of_mem
      intro c hcf
      rw [custFinset, List.mem_toFinset] at hcf
      obtain ⟨r, hr, hrc⟩ := List.mem_filterMap.mp hcf
      obtain ⟨r₀, hr₀m, hr₀f, hr₀p⟩ :=
        @find?_row (fun x => x.customer_id == some c) _ _ hr
          (by simp only [hrc, beq_self_eq_true])
      simp only [beq_iff_eq] at hr₀p
      rw [custStateOf, hr₀f, Option.some_bind]
      exact hall r₀ hr₀m (by rw [hr₀p]; rfl)

/-- Claim C6 (witness): on the worked example table every customer has a
state, and the by-state counts sum exactly to the three distinct
customers. -/
theorem C6_bystate_sum_witness :
    ((create_bystate_customer_df c2table).map Prod.snd).sum ≤
      nuniqueCustomer c2table ∧
    ((create_bystate_customer_df c2table).map Prod.snd).sum =
      nuniqueCustomer c2table := by
  obtain ⟨hle, hiff⟩ := C6_bystate_sum c2table (by decide)
  exact ⟨hle, hiff.mpr (by decide)⟩
